import Mathlib

/-!
Verification of the edict2 line parser: a shallow embedding of the
canonical revision of `edict.go` (the state-machine based `parseKey` and
`parseGloss`, the line assembler `parseLine`, and the batch driver
`Parse`), together with the `Detail` taxonomy tables.  Go strings are
modelled as rune lists (`List Char`), Go's fallible functions return
`Option`, and out-of-range slice indexing is modelled by an explicit
`crash` outcome.
-/

set_option maxRecDepth 100000

namespace Edict

/-- Rune sequence of a Go string. -/
abbrev Str := List Char

/-- Rune list of a Lean string literal. -/
def str (s : String) : Str := s.toList

/-- Go `unicode.IsSpace`: '\t' '\n' '\v' '\f' '\r' ' ' U+0085 U+00A0 and the
Unicode White_Space code points above U+00FF. -/
def isSpaceGo (c : Char) : Bool :=
  let n := c.toNat
  n = 0x20 || (0x9 ≤ n && n ≤ 0xD) || n = 0x85 || n = 0xA0 || n = 0x1680 ||
    (0x2000 ≤ n && n ≤ 0x200A) || n = 0x2028 || n = 0x2029 || n = 0x202F ||
    n = 0x205F || n = 0x3000

/-- Go `strings.TrimSpace`. -/
def trimSpaceGo (s : Str) : Str :=
  ((s.dropWhile isSpaceGo).reverse.dropWhile isSpaceGo).reverse

/-- Go `strings.HasPrefix` on rune lists (first argument is the pattern). -/
def leadsWith : Str → Str → Bool
  | [], _ => true
  | _ :: _, [] => false
  | p :: ps, c :: cs => p == c && leadsWith ps cs

/-- Numeric value of a digit string. -/
def digitsVal (s : Str) : Nat := s.foldl (fun a c => a * 10 + (c.toNat - 48)) 0

/-- Go `strconv.Atoi` succeeds: an optional sign, then a non-empty run of
decimal digits, within the 64-bit int range. -/
def isGoInt : Str → Bool
  | [] => false
  | '+' :: ds => !ds.isEmpty && ds.all Char.isDigit && digitsVal ds < 2 ^ 63
  | '-' :: ds => !ds.isEmpty && ds.all Char.isDigit && digitsVal ds ≤ 2 ^ 63
  | ds => ds.all Char.isDigit && digitsVal ds < 2 ^ 63

/-- The `Detail` enumeration: part-of-speech / usage markings, exactly the
constants of the source in declaration order. -/
inductive Detail where
  | Adj_i | Adj_na | Adj_no | Adj_pn | Adj_t | Adj_f | Adj | Adv | Adv_n
  | Adv_to | Aux | Aux_v | Aux_adj | Conj | Ctr | Exp | Int | Iv | N
  | N_adv | N_pref | N_suf | N_t | Num | Pn | Pref | Prt | Suf | V1
  | V2a_s | V4h | V4r | V5 | V5aru | V5b | V5g | V5k | V5k_s | V5m | V5n
  | V5r | V5r_i | V5s | V5t | V5u | V5u_s | V5uru | V5z | Vz | Vi | Vk
  | Vn | Vs | Vs_c | Vs_i | Vs_s | Vt
  | Buddh | MA | Comp | Food | Geom | Gram | Ling | Math | Mil | Physics
  | X | Abbr | Arch | Ateji | Chn | Col | Derog | EK | Ek | Fam | Fem
  | Gikun | Hon | Hum | Ik | IK | Id | Io | M_sl | Male | Male_sl | OK
  | Obs | Obsc | Ok | On_mim | Poet | Pol | Rare | Sens | Sl | UK | Uk
  | Vulg
  | Common
deriving DecidableEq, Repr, Fintype

/-- The `DetailString` table: canonical short code of each `Detail`. -/
def detailCode : Detail → Str
  | .Adj_i => str "adj-i"
  | .Adj_na => str "adj-na"
  | .Adj_no => str "adj-no"
  | .Adj_pn => str "adj-pn"
  | .Adj_t => str "adj-t"
  | .Adj_f => str "adj-f"
  | .Adj => str "adj"
  | .Adv => str "adv"
  | .Adv_n => str "adv-n"
  | .Adv_to => str "adv-to"
  | .Aux => str "aux"
  | .Aux_v => str "aux-v"
  | .Aux_adj => str "aux-adj"
  | .Conj => str "conj"
  | .Ctr => str "ctr"
  | .Exp => str "exp"
  | .Int => str "int"
  | .Iv => str "iv"
  | .N => str "n"
  | .N_adv => str "n-adv"
  | .N_pref => str "n-pref"
  | .N_suf => str "n-suf"
  | .N_t => str "n-t"
  | .Num => str "num"
  | .Pn => str "pn"
  | .Pref => str "pref"
  | .Prt => str "prt"
  | .Suf => str "suf"
  | .V1 => str "v1"
  | .V2a_s => str "v2a-s"
  | .V4h => str "v4h"
  | .V4r => str "v4r"
  | .V5 => str "v5"
  | .V5aru => str "v5aru"
  | .V5b => str "v5b"
  | .V5g => str "v5g"
  | .V5k => str "v5k"
  | .V5k_s => str "v5k-s"
  | .V5m => str "v5m"
  | .V5n => str "v5n"
  | .V5r => str "v5r"
  | .V5r_i => str "v5r-i"
  | .V5s => str "v5s"
  | .V5t => str "v5t"
  | .V5u => str "v5u"
  | .V5u_s => str "v5u-s"
  | .V5uru => str "v5uru"
  | .V5z => str "v5z"
  | .Vz => str "vz"
  | .Vi => str "vi"
  | .Vk => str "vk"
  | .Vn => str "vn"
  | .Vs => str "vs"
  | .Vs_c => str "vs-c"
  | .Vs_i => str "vs-i"
  | .Vs_s => str "vs-s"
  | .Vt => str "vt"
  | .Buddh => str "buddh"
  | .MA => str "mA"
  | .Comp => str "comp"
  | .Food => str "food"
  | .Geom => str "geom"
  | .Gram => str "gram"
  | .Ling => str "ling"
  | .Math => str "math"
  | .Mil => str "mil"
  | .Physics => str "physics"
  | .X => str "x"
  | .Abbr => str "abbr"
  | .Arch => str "arch"
  | .Ateji => str "ateji"
  | .Chn => str "chn"
  | .Col => str "col"
  | .Derog => str "derog"
  | .EK => str "eK"
  | .Ek => str "ek"
  | .Fam => str "fam"
  | .Fem => str "fem"
  | .Gikun => str "gikun"
  | .Hon => str "hon"
  | .Hum => str "hum"
  | .Ik => str "ik"
  | .IK => str "iK"
  | .Id => str "id"
  | .Io => str "io"
  | .M_sl => str "m-sl"
  | .Male => str "male"
  | .Male_sl => str "male-sl"
  | .OK => str "oK"
  | .Obs => str "obs"
  | .Obsc => str "obsc"
  | .Ok => str "ok"
  | .On_mim => str "on-mim"
  | .Poet => str "poet"
  | .Pol => str "pol"
  | .Rare => str "rare"
  | .Sens => str "sens"
  | .Sl => str "sl"
  | .UK => str "uK"
  | .Uk => str "uk"
  | .Vulg => str "vulg"
  | .Common => str "P"

/-- All `Detail` values in declaration order. -/
def allDetails : List Detail :=
  [Detail.Adj_i,
   Detail.Adj_na,
   Detail.Adj_no,
   Detail.Adj_pn,
   Detail.Adj_t,
   Detail.Adj_f,
   Detail.Adj,
   Detail.Adv,
   Detail.Adv_n,
   Detail.Adv_to,
   Detail.Aux,
   Detail.Aux_v,
   Detail.Aux_adj,
   Detail.Conj,
   Detail.Ctr,
   Detail.Exp,
   Detail.Int,
   Detail.Iv,
   Detail.N,
   Detail.N_adv,
   Detail.N_pref,
   Detail.N_suf,
   Detail.N_t,
   Detail.Num,
   Detail.Pn,
   Detail.Pref,
   Detail.Prt,
   Detail.Suf,
   Detail.V1,
   Detail.V2a_s,
   Detail.V4h,
   Detail.V4r,
   Detail.V5,
   Detail.V5aru,
   Detail.V5b,
   Detail.V5g,
   Detail.V5k,
   Detail.V5k_s,
   Detail.V5m,
   Detail.V5n,
   Detail.V5r,
   Detail.V5r_i,
   Detail.V5s,
   Detail.V5t,
   Detail.V5u,
   Detail.V5u_s,
   Detail.V5uru,
   Detail.V5z,
   Detail.Vz,
   Detail.Vi,
   Detail.Vk,
   Detail.Vn,
   Detail.Vs,
   Detail.Vs_c,
   Detail.Vs_i,
   Detail.Vs_s,
   Detail.Vt,
   Detail.Buddh,
   Detail.MA,
   Detail.Comp,
   Detail.Food,
   Detail.Geom,
   Detail.Gram,
   Detail.Ling,
   Detail.Math,
   Detail.Mil,
   Detail.Physics,
   Detail.X,
   Detail.Abbr,
   Detail.Arch,
   Detail.Ateji,
   Detail.Chn,
   Detail.Col,
   Detail.Derog,
   Detail.EK,
   Detail.Ek,
   Detail.Fam,
   Detail.Fem,
   Detail.Gikun,
   Detail.Hon,
   Detail.Hum,
   Detail.Ik,
   Detail.IK,
   Detail.Id,
   Detail.Io,
   Detail.M_sl,
   Detail.Male,
   Detail.Male_sl,
   Detail.OK,
   Detail.Obs,
   Detail.Obsc,
   Detail.Ok,
   Detail.On_mim,
   Detail.Poet,
   Detail.Pol,
   Detail.Rare,
   Detail.Sens,
   Detail.Sl,
   Detail.UK,
   Detail.Uk,
   Detail.Vulg,
   Detail.Common]

/-- The `DetailFor` map: code string back to its `Detail` (built in the
source by inverting `DetailString`). -/
def detailFor (s : Str) : Option Detail :=
  allDetails.find? (fun d => detailCode d == s)

/-- Go map indexing `DetailFor[s]`: yields the zero value `Detail(0)`
(`Adj_i`) on a missing key. -/
def lookupDetail (s : Str) : Detail := (detailFor s).getD .Adj_i

/-- Classification of a parenthesized token (the `identifierClass` type). -/
inductive IdClass where
  | none | xref | detail | text
deriving DecidableEq, Repr

/-- The `parseIdentifier` function: ordinal markers (base-10 integers) are
dropped, a `"See "` prefix marks a cross-reference, a known code is a
detail, anything else is free text. -/
def parseIdentifier (s : Str) : IdClass × Str :=
  if isGoInt s then (.none, [])
  else if leadsWith (str "See ") s then (.xref, s.drop 4)
  else
    match detailFor s with
    | some _ => (.detail, s)
    | Option.none => (.text, s)

/-- States of the `parseGloss` machine (`startGS`, `captureGS`, `closedGS`,
`definitionGS`). -/
inductive GState where
  | start | capture | closed | definition
deriving DecidableEq, Repr

/-- Running state of `parseGloss`: the machine state, the two capture
buffers, the accumulated details and cross references, and whether the Go
code has assigned a non-nil `err` so far. -/
structure GlossSt where
  state : GState
  captured : Str
  defcapture : Str
  details : List Detail
  xrefs : List Str
  errFlag : Bool
deriving DecidableEq, Repr

/-- One iteration of the `parseGloss` loop body on character `c`. -/
def glossStep (st : GlossSt) (c : Char) : GlossSt :=
  match st.state with
  | .start =>
    if c = '(' then { st with state := .capture }
    else { st with state := .definition, defcapture := st.defcapture ++ [c] }
  | .definition => { st with defcapture := st.defcapture ++ [c] }
  | .capture =>
    if c = ')' then
      match parseIdentifier st.captured with
      | (.detail, ident) =>
        { st with state := .closed, details := st.details ++ [lookupDetail ident],
                  captured := [] }
      | (.xref, ident) =>
        { st with state := .closed, xrefs := st.xrefs ++ [ident], captured := [] }
      | (.text, _) =>
        { st with state := .definition,
                  defcapture := st.defcapture ++ ['('] ++ st.captured ++ [')'],
                  captured := [] }
      | (.none, _) => { st with state := .closed, captured := [] }
    else if c = ',' then
      match parseIdentifier st.captured with
      | (.detail, ident) =>
        { st with details := st.details ++ [lookupDetail ident], captured := [] }
      | _ => { st with captured := st.captured ++ [','] }
    else { st with captured := st.captured ++ [c] }
  | .closed =>
    if c = ' ' then { st with state := .start } else { st with errFlag := true }

/-- Initial state of `parseGloss`. -/
def initGloss : GlossSt := ⟨.start, [], [], [], [], false⟩

/-- The `parseGloss` loop run over a rune list. -/
def glossRun (cs : Str) : GlossSt := cs.foldl glossStep initGloss

/-- The `parseGloss` function: trims the input, runs the machine, and
fails when `err` was assigned or the machine did not end in the
definition state; otherwise yields (definition, details, xrefs). -/
def parseGloss (g : Str) : Option (Str × List Detail × List Str) :=
  let r := glossRun (trimSpaceGo g)
  if r.errFlag then Option.none
  else if r.state ≠ .definition then Option.none
  else some (r.defcapture, r.details, r.xrefs)

/-- States of the `parseKey` machine (`kanjiKS`, `spaceKS`, `kanaKS`,
`doneKS`). -/
inductive KState where
  | kanji | space | kana | done
deriving DecidableEq, Repr

/-- Running state of `parseKey`. -/
structure KeySt where
  state : KState
  kanji : List Str
  kana : List Str
  capture : Str
deriving DecidableEq, Repr

/-- One iteration of the `parseKey` loop body on character `c`. -/
def keyStep (st : KeySt) (c : Char) : KeySt :=
  if c = ';' ∨ (st.state = .kana ∧ c = ']') ∨ (st.state = .kanji ∧ c = ' ') then
    if st.state = .kanji then
      { st with kanji := st.kanji ++ [st.capture],
                state := if c = ' ' then .space else st.state,
                capture := [] }
    else if st.state = .kana then
      { st with kana := st.kana ++ [st.capture],
                state := if c = ']' then .done else st.state,
                capture := [] }
    else { st with capture := [] }
  else if c = ' ' ∧ st.state = .space then st
  else if c = '[' ∧ st.state = .space then { st with state := .kana }
  else { st with capture := st.capture ++ [c] }

/-- Initial state of `parseKey`. -/
def initKey : KeySt := ⟨.kanji, [], [], []⟩

/-- The `parseKey` loop run over a rune list. -/
def keyRun (cs : Str) : KeySt := cs.foldl keyStep initKey

/-- The flush after the `parseKey` loop: a machine still in the kanji
state appends the pending buffer as a final kanji and finishes. -/
def keyFlush (r : KeySt) : KeySt :=
  if r.state = .kanji then
    { r with kanji := r.kanji ++ [r.capture], capture := [], state := .done }
  else r

/-- The `parseKey` function: trims, runs the machine, flushes, and fails
unless the machine ends in the done or space state with an empty pending
buffer. -/
def parseKey (key : Str) : Option (List Str × List Str) :=
  let r := keyFlush (keyRun (trimSpaceGo key))
  if ¬(r.state = .done ∨ r.state = .space) then Option.none
  else if r.capture ≠ [] then Option.none
  else some (r.kanji, r.kana)

/-- The `fixKey` function: everything from the first '(' onward is cut. -/
def fixKey (k : Str) : Str :=
  if k.contains '(' then k.takeWhile (· ≠ '(') else k

/-- Fuel-driven worker for `splitGo`; the fuel strictly exceeds the input
length on entry, so the fuel never runs out for a non-empty separator. -/
def splitGoFuel (sep : Str) : Nat → Str → List Str
  | _, [] => [[]]
  | 0, s => [s]
  | fuel + 1, c :: cs =>
    if leadsWith sep (c :: cs) then
      [] :: splitGoFuel sep fuel ((c :: cs).drop sep.length)
    else
      match splitGoFuel sep fuel cs with
      | t :: ts => (c :: t) :: ts
      | [] => [[c]]

/-- Go `strings.Split` around each non-overlapping leftmost occurrence of
a non-empty separator; always returns a non-empty list. -/
def splitGo (sep : Str) (s : Str) : List Str := splitGoFuel sep (s.length + 1) s

/-- One English definition of an entry (the `Gloss` struct). -/
structure Gloss where
  Definition : Str
  Information : List Detail
  Xref : List Str
deriving DecidableEq, Repr

/-- One parsed line of edict2 input (the `Entry` struct). -/
structure Entry where
  Kanji : List Str
  Kana : List Str
  Information : List Detail
  Gloss : List Gloss
  Sequence : Str
  RecordingAvailable : Bool
deriving DecidableEq, Repr

/-- Outcome of `parseLine`: a parsed `Entry`, a returned error, or a Go
runtime panic from out-of-range slice indexing (`crash`). -/
inductive LineRes where
  | ok (e : Entry)
  | err
  | crash
deriving DecidableEq, Repr

/-- Whether a `parseLine` outcome is a parsed entry. -/
def LineRes.isOk : LineRes → Bool
  | .ok _ => true
  | _ => false

/-- The parsed entry of a `parseLine` outcome, when there is one. -/
def LineRes.toOption : LineRes → Option Entry
  | .ok e => some e
  | _ => Option.none

/-- Result of the front part of `parseLine` (split, trailing-blank check,
sequence extraction, key parsing) when no early return fires. -/
structure Front where
  parts : List Str
  kanji : List Str
  kana : List Str
  seq : Str
  recAvail : Bool
deriving DecidableEq, Repr

/-- Front part of `parseLine`: split the line on '/', require a blank
last component, read the sequence (panicking when only one component
exists, as Go indexes `parts[len(parts)-2]`), strip a trailing 'X'
recording marker, and parse the key field. -/
def lineFront (line : Str) : Except LineRes Front :=
  let parts := splitGo ['/'] line
  if parts.getLastD [] ≠ [] then .error .err
  else if parts.length < 2 then .error .crash
  else
    let seq0 := parts.getD (parts.length - 2) []
    let hasX := seq0.getLast? = some 'X'
    let seq := if seq0.getLast? = some 'X' then seq0.dropLast else seq0
    match parseKey (parts.getD 0 []) with
    | Option.none => .error .err
    | some (kanji, kana) => .ok ⟨parts, kanji, kana, seq, hasX⟩

/-- The gloss loop of `parseLine`: a field equal to `"(P)"` appends the
`Common` marking to the entry-wide information and contributes no gloss;
any other field goes through `parseGloss`, whose failure aborts the
line. -/
def glossLoop (info : List Detail) : List Str → Option (List Detail × List Gloss)
  | [] => some (info, [])
  | g :: rest =>
    if g = str "(P)" then glossLoop (info ++ [.Common]) rest
    else
      match parseGloss g with
      | Option.none => Option.none
      | some (d, det, xr) =>
        match glossLoop info rest with
        | Option.none => Option.none
        | some (i2, out) => some (i2, ⟨d, det, xr⟩ :: out)

/-- Tail of `parseLine` after the entry-details section: collect the
remaining gloss fields, run the gloss loop, apply the single-gloss
promotion for lines of at most four components (indexing `Gloss[0]`, a
panic when no gloss was produced), and clean the keys with `fixKey`. -/
def finishLine (fr : Front) (info : List Detail) (firstGloss : Str) : LineRes :=
  let middle :=
    if fr.parts.length > 4 then (fr.parts.drop 2).take (fr.parts.length - 4) else []
  match glossLoop info (firstGloss :: middle) with
  | Option.none => .err
  | some (i2, glossList) =>
    if fr.parts.length ≤ 4 then
      match glossList with
      | [] => .crash
      | g0 :: rest =>
        .ok ⟨fr.kanji.map fixKey, fr.kana.map fixKey, g0.Information,
             ⟨g0.Definition, [], g0.Xref⟩ :: rest, fr.seq, fr.recAvail⟩
    else
      .ok ⟨fr.kanji.map fixKey, fr.kana.map fixKey, i2, glossList, fr.seq,
           fr.recAvail⟩

/-- The `parseLine` function: front part, then for lines of more than
four components the entry-wide details section before a unique `"(1)"`
marker in the first gloss field is parsed (with a placeholder definition
body) and must carry no cross reference, then the remaining fields are
assembled. -/
def parseLine (line : Str) : LineRes :=
  match lineFront line with
  | .error r => r
  | .ok fr =>
    if fr.parts.length > 4 then
      match splitGo (str "(1)") (fr.parts.getD 1 []) with
      | [pre, post] =>
        match parseGloss (pre ++ str "fake definition") with
        | Option.none => .err
        | some (_, det, xr) =>
          if xr = [] then finishLine fr det post else .err
      | _ => finishLine fr [] (fr.parts.getD 1 [])
    else finishLine fr [] (fr.parts.getD 1 [])

/-- Modelled from the spec: the same line assembly with no scope
redistribution at all — the first gloss field is always parsed whole and
no entry-wide details are taken from it.  Used to compare `parseLine`
with the spec's description of when redistribution happens. -/
def parseLineWhole (line : Str) : LineRes :=
  match lineFront line with
  | .error r => r
  | .ok fr => finishLine fr [] (fr.parts.getD 1 [])

/-- The gloss-field strings a successful `parseLine` feeds to the gloss
loop: the first field (or its part after the `"(1)"` marker when the
redistribution branch replaces it) followed by the middle components. -/
def glossFieldsOf (line : Str) : List Str :=
  let parts := splitGo ['/'] line
  let first :=
    if parts.length > 4 then
      match splitGo (str "(1)") (parts.getD 1 []) with
      | [_, post] => post
      | _ => parts.getD 1 []
    else parts.getD 1 []
  first :: (if parts.length > 4 then (parts.drop 2).take (parts.length - 4) else [])

/-- The hand-maintained skip list of known-bad line numbers. -/
def blacklist : List Nat := [5189, 31179, 104168, 104171, 148763]

/-- Outcome of the batch driver: all entries, or the entries accumulated
before a non-skippable failure together with its 1-based line number, or
a propagated panic. -/
inductive ParseOut where
  | ok (es : List Entry)
  | fail (es : List Entry) (lineNo : Nat)
  | crash
deriving DecidableEq, Repr

/-- The batch loop of `Parse`: `lineNo` is the number of lines already
consumed; each line is parsed, a failing line whose 1-based number is on
the blacklist is skipped, any other failure stops the batch. -/
def ParseAux (lineNo : Nat) : List Str → ParseOut
  | [] => .ok []
  | l :: rest =>
    let n := lineNo + 1
    match parseLine l with
    | .crash => .crash
    | .err => if n ∈ blacklist then ParseAux n rest else .fail [] n
    | .ok e =>
      match ParseAux n rest with
      | .ok es => .ok (e :: es)
      | .fail es m => .fail (e :: es) m
      | .crash => .crash

/-- The `Parse` function over an abstract list of input lines. -/
def Parse (lines : List Str) : ParseOut := ParseAux 0 lines

/-- Prepend already-accumulated entries to a batch outcome. -/
def prependE (es : List Entry) : ParseOut → ParseOut
  | .ok es' => .ok (es ++ es')
  | .fail es' m => .fail (es ++ es') m
  | .crash => .crash

/-- C10: the code table is a bijection on the closed set — looking up the
code of any `Detail` in `DetailFor` returns that `Detail` again, and no
two distinct `Detail` values share a code string. -/
theorem detail_code_bijection :
    (∀ d : Detail, detailFor (detailCode d) = some d) ∧
      (∀ d₁ d₂ : Detail, detailCode d₁ = detailCode d₂ → d₁ = d₂) := by
  have h1 : ∀ d : Detail, detailFor (detailCode d) = some d := by decide
  refine ⟨h1, fun d₁ d₂ h => ?_⟩
  have h2 := h1 d₁
  rw [h, h1 d₂] at h2
  exact (Option.some.inj h2).symm

/-- Witness for `detail_code_bijection` at concrete details. -/
theorem detail_code_bijection_witness :
    detailFor (detailCode Detail.Vs_c) = some Detail.Vs_c ∧ Detail.N = Detail.N :=
  ⟨detail_code_bijection.1 Detail.Vs_c,
   detail_code_bijection.2 Detail.N Detail.N rfl⟩

/-- C3: `parseLine` is not total — the empty line (a single '/'-split
component, so reading the second-to-last component indexes out of range)
and a line whose only definition slot is exactly `(P)` with four
components (the promotion indexes `Gloss[0]` of an empty list) both
panic, and `Parse` propagates the panic. -/
theorem parseLine_not_total :
    parseLine (str "") = .crash ∧ parseLine (str "A/(P)/seq/") = .crash ∧
      Parse [str "A/(P)/seq/"] = .crash := by
  decide

/-- Counterexample to C1 as stated: this line has four fields between the
key and the trailing blank (three of them definition-bearing, more than
two on any count), yet no scope redistribution happens because the first
gloss field contains no `"(1)"` marker — the entry-wide `Information`
stays empty and the first field is parsed whole, keeping its `n` tag. -/
theorem parseLine_scope_redistribution_cex :
    (splitGo ['/'] (str "A/(n) foo/bar/baz/seq/")).length = 6 ∧
      parseLine (str "A/(n) foo/bar/baz/seq/") =
        .ok ⟨[str "A"], [], [],
             [⟨str "foo", [.N], []⟩, ⟨str "bar", [], []⟩, ⟨str "baz", [], []⟩],
             str "seq", false⟩ := by
  decide

/-- Counterexample to C2 as stated: this line ultimately produced exactly
one definition (the second field is the literal `(P)`), yet that
definition keeps its own `n` tag — nothing is promoted, because the line
has five '/'-split components. -/
theorem parseLine_single_gloss_promotion_cex :
    parseLine (str "A/(n) foo/(P)/seq/") =
        .ok ⟨[str "A"], [], [.Common], [⟨str "foo", [.N], []⟩], str "seq", false⟩ ∧
      (Entry.mk [str "A"] [] [.Common] [⟨str "foo", [.N], []⟩] (str "seq")
          false).Gloss.length = 1 ∧
      ((Entry.mk [str "A"] [] [.Common] [⟨str "foo", [.N], []⟩] (str "seq")
          false).Gloss.getD 0 ⟨[], [], []⟩).Information ≠ [] := by
  decide

/-- Counterexample to C4 as stated: a line whose every definition slot is
the literal `(P)` parses successfully to a `Record` with an empty
`Gloss` sequence. -/
theorem parseLine_gloss_nonempty_cex :
    parseLine (str "A/(P)/(P)/seq/") =
        .ok ⟨[str "A"], [], [.Common, .Common], [], str "seq", false⟩ ∧
      (Entry.mk [str "A"] [] [.Common, .Common] [] (str "seq") false).Gloss = [] := by
  decide

/-- Counterexample to C5 as stated: `parseKey` succeeds here although the
returned kanji entry contains a closing bracket and the returned kana
entry has a leading space. -/
theorem parseKey_output_guarantee_cex :
    parseKey (str "A] [ B]") = some ([str "A]"], [str " B"]) ∧
      ']' ∈ str "A]" ∧ (str " B").head? = some ' ' := by
  decide

/-- Counterexample to C6 as stated: `parseKey "A [b]"` ends in the done
state — a terminal state other than accumulating-a-primary-form — yet
succeeds, and `parseKey "A;B"` ends accumulating a primary form and
flushes the pending token as the final primary form without it being the
only one. -/
theorem parseKey_termination_cex :
    (keyRun (trimSpaceGo (str "A [b]"))).state = .done ∧
      parseKey (str "A [b]") = some ([str "A"], [str "b"]) ∧
      (keyRun (trimSpaceGo (str "A;B"))).state = .kanji ∧
      parseKey (str "A;B") = some ([str "A", str "B"], []) := by
  decide

/-- C7: inside a parenthetical a comma closes the current tag without
closing the parenthesis — the accumulated token is classified; a token
classifying as a known annotation code is emitted immediately with the
buffer reset, while any other classification appends the comma as an
ordinary character and accumulation continues.  The grouped form
`"(n,adj-no) foo"` yields `[N, Adj_no]` in order with definition
`"foo"`. -/
theorem parseGloss_comma_rule :
    (∀ (cap defc : Str) (det : List Detail) (xr : List Str) (ef : Bool),
      ((parseIdentifier cap).1 = .detail →
        glossStep ⟨.capture, cap, defc, det, xr, ef⟩ ',' =
          ⟨.capture, [], defc, det ++ [lookupDetail (parseIdentifier cap).2], xr, ef⟩) ∧
      ((parseIdentifier cap).1 ≠ .detail →
        glossStep ⟨.capture, cap, defc, det, xr, ef⟩ ',' =
          ⟨.capture, cap ++ [','], defc, det, xr, ef⟩)) ∧
      parseGloss (str "(n,adj-no) foo") = some (str "foo", [.N, .Adj_no], []) := by
  refine ⟨fun cap defc det xr ef => ⟨?_, ?_⟩, by decide⟩
  · intro hd
    rcases hp : parseIdentifier cap with ⟨cls, ident⟩
    have hcls : cls = IdClass.detail := by rw [hp] at hd; exact hd
    subst hcls
    simp only [glossStep, hp]
    rfl
  · intro hd
    rcases hp : parseIdentifier cap with ⟨cls, ident⟩
    have hne : cls ≠ IdClass.detail := by rw [hp] at hd; exact hd
    simp only [glossStep, hp]
    cases cls
    · rfl
    · rfl
    · exact absurd rfl hne
    · rfl

/-- Witness for `parseGloss_comma_rule`: the comma after the token `n`
emits the `N` annotation immediately and resets the buffer, leaving the
machine inside the parenthetical. -/
theorem parseGloss_comma_rule_witness :
    glossStep ⟨.capture, str "n", [], [], [], false⟩ ',' =
        ⟨.capture, [], [], [] ++ [lookupDetail (parseIdentifier (str "n")).2], [],
         false⟩ ∧
      parseGloss (str "(n,adj-no) foo") = some (str "foo", [.N, .Adj_no], []) :=
  ⟨(parseGloss_comma_rule.1 (str "n") [] [] [] false).1 (by decide),
   parseGloss_comma_rule.2⟩

/-- One step of the gloss machine raises the error flag exactly when the
machine is in the closed state and the character is not a space. -/
theorem glossStep_errFlag (st : GlossSt) (c : Char) :
    (glossStep st c).errFlag = true ↔
      (st.errFlag = true ∨ (st.state = .closed ∧ c ≠ ' ')) := by
  obtain ⟨s, cap, defc, det, xr, ef⟩ := st
  cases s
  · by_cases hc : c = '(' <;> simp [glossStep, hc]
  · by_cases h1 : c = ')'
    · rcases hp : parseIdentifier cap with ⟨cls, ident⟩
      cases cls <;> simp [glossStep, h1, hp]
    · by_cases h2 : c = ','
      · rcases hp : parseIdentifier cap with ⟨cls, ident⟩
        cases cls <;> simp [glossStep, h1, h2, hp]
      · simp [glossStep, h1, h2]
  · by_cases hc : c = ' ' <;> simp [glossStep, hc]
  · simp [glossStep]

/-- Running the gloss machine raises the error flag exactly when some
character of the input is consumed in the closed state and is not a
space. -/
theorem foldl_glossStep_errFlag (cs : Str) : ∀ st : GlossSt,
    ((cs.foldl glossStep st).errFlag = true ↔
      (st.errFlag = true ∨ ∃ pre c post, cs = pre ++ c :: post ∧
        (pre.foldl glossStep st).state = .closed ∧ c ≠ ' ')) := by
  induction cs with
  | nil =>
    intro st
    simp
  | cons c cs ih =>
    intro st
    rw [List.foldl_cons, ih (glossStep st c)]
    constructor
    · rintro (h | ⟨pre, c', post, rfl, hst, hc⟩)
      · rw [glossStep_errFlag] at h
        rcases h with h | ⟨hcl, hc⟩
        · exact Or.inl h
        · exact Or.inr ⟨[], c, cs, rfl, hcl, hc⟩
      · exact Or.inr ⟨c :: pre, c', post, rfl, hst, hc⟩
    · rintro (h | ⟨pre, c', post, heq, hst, hc⟩)
      · exact Or.inl ((glossStep_errFlag st c).mpr (Or.inl h))
      · cases pre with
        | nil =>
          simp only [List.nil_append] at heq
          obtain ⟨rfl, rfl⟩ := List.cons.inj heq
          exact Or.inl ((glossStep_errFlag st c).mpr (Or.inr ⟨hst, hc⟩))
        | cons p pre' =>
          rw [List.cons_append] at heq
          obtain ⟨rfl, rfl⟩ := List.cons.inj heq
          exact Or.inr ⟨pre', c', post, rfl, hst, hc⟩

/-- `parseGloss` fails exactly when the error flag was raised or the run
did not end in the definition state. -/
theorem parseGloss_none_iff (g : Str) :
    parseGloss g = Option.none ↔
      ((glossRun (trimSpaceGo g)).errFlag = true ∨
        (glossRun (trimSpaceGo g)).state ≠ .definition) := by
  simp only [parseGloss]
  split_ifs with h1 h2
  · simp [h1]
  · simp [h1, h2]
  · simp [h1, h2]

/-- C8: `parseGloss` returns an error exactly when, on the trimmed input,
some character is met in the just-closed-parenthetical state and is not a
space, or the machine is not in the definition-text state at end of
input. -/
theorem parseGloss_error_iff (g : Str) :
    parseGloss g = Option.none ↔
      ((∃ pre c post, trimSpaceGo g = pre ++ c :: post ∧
          (glossRun pre).state = .closed ∧ c ≠ ' ') ∨
        (glossRun (trimSpaceGo g)).state ≠ .definition) := by
  rw [parseGloss_none_iff g]
  simp only [glossRun]
  rw [foldl_glossStep_errFlag (trimSpaceGo g) initGloss]
  simp [initGloss]

/-- Witness for `parseGloss_error_iff`: an input consisting only of a tag
with no definition text fails. -/
theorem parseGloss_error_iff_witness : parseGloss (str "(n)") = Option.none :=
  (parseGloss_error_iff (str "(n)")).mpr (Or.inr (by decide))

/-- One key step preserves the invariant that a machine in the kanji
state has an empty kana list. -/
theorem keyStep_kana_inv (st : KeySt) (c : Char)
    (hp : st.state = .kanji → st.kana = []) :
    (keyStep st c).state = .kanji → (keyStep st c).kana = [] := by
  intro h
  obtain ⟨s, kj, kn, cap⟩ := st
  simp only [keyStep] at h ⊢
  split_ifs at h ⊢ <;> simp_all

/-- While the key machine is still in the kanji state, no kana has been
collected. -/
theorem keyRun_kana (cs : Str) :
    (keyRun cs).state = .kanji → (keyRun cs).kana = [] := by
  have main : ∀ st : KeySt, (st.state = .kanji → st.kana = []) →
      ((cs.foldl keyStep st).state = .kanji → (cs.foldl keyStep st).kana = []) := by
    induction cs with
    | nil => intro st h; exact h
    | cons c cs ih => intro st h; exact ih (keyStep st c) (keyStep_kana_inv st c h)
  exact main initKey (fun _ => rfl)

/-- One key step preserves semicolon-freeness of every buffer and every
collected token. -/
theorem keyStep_semi_inv (st : KeySt) (c : Char)
    (h : ';' ∉ st.capture ∧ (∀ t ∈ st.kanji, ';' ∉ t) ∧ ∀ t ∈ st.kana, ';' ∉ t) :
    ';' ∉ (keyStep st c).capture ∧ (∀ t ∈ (keyStep st c).kanji, ';' ∉ t) ∧
      ∀ t ∈ (keyStep st c).kana, ';' ∉ t := by
  obtain ⟨h1, h2, h3⟩ := h
  obtain ⟨s, kj, kn, cap⟩ := st
  dsimp only at h1 h2 h3
  simp only [keyStep]
  split_ifs with hA hB hC hD hE <;>
    refine ⟨?_, ?_, ?_⟩ <;>
    dsimp only <;>
    first
      | exact h1
      | exact h2
      | exact h3
      | decide
      | (intro t ht
         simp only [List.mem_append, List.mem_singleton] at ht
         rcases ht with ht | rfl
         · first | exact h2 t ht | exact h3 t ht
         · exact h1)
      | (intro hmem
         simp only [List.mem_append, List.mem_singleton] at hmem
         rcases hmem with hm | hm
         · exact h1 hm
         · exact hA (Or.inl hm.symm))

/-- No token collected by the key machine ever contains a semicolon, nor
does the pending buffer. -/
theorem keyRun_semi (cs : Str) :
    ';' ∉ (keyRun cs).capture ∧ (∀ t ∈ (keyRun cs).kanji, ';' ∉ t) ∧
      ∀ t ∈ (keyRun cs).kana, ';' ∉ t := by
  have main : ∀ st : KeySt,
      (';' ∉ st.capture ∧ (∀ t ∈ st.kanji, ';' ∉ t) ∧ ∀ t ∈ st.kana, ';' ∉ t) →
      (';' ∉ (cs.foldl keyStep st).capture ∧
        (∀ t ∈ (cs.foldl keyStep st).kanji, ';' ∉ t) ∧
        ∀ t ∈ (cs.foldl keyStep st).kana, ';' ∉ t) := by
    induction cs with
    | nil => intro st h; exact h
    | cons c cs ih => intro st h; exact ih (keyStep st c) (keyStep_semi_inv st c h)
  exact main initKey ⟨by simp [initKey], by simp [initKey], by simp [initKey]⟩

/-- One key step preserves the invariant that once the machine has left
the kanji state, at least one kanji token has been collected. -/
theorem keyStep_nonempty_inv (st : KeySt) (c : Char)
    (h : st.state ≠ .kanji → st.kanji ≠ []) :
    (keyStep st c).state ≠ .kanji → (keyStep st c).kanji ≠ [] := by
  intro hne
  obtain ⟨s, kj, kn, cap⟩ := st
  simp only [keyStep] at hne ⊢
  split_ifs at hne ⊢ <;> simp_all

/-- Once the key machine has left the kanji state, the kanji list is
non-empty. -/
theorem keyRun_nonempty (cs : Str) :
    (keyRun cs).state ≠ .kanji → (keyRun cs).kanji ≠ [] := by
  have main : ∀ st : KeySt, (st.state ≠ .kanji → st.kanji ≠ []) →
      ((cs.foldl keyStep st).state ≠ .kanji → (cs.foldl keyStep st).kanji ≠ []) := by
    induction cs with
    | nil => intro st h; exact h
    | cons c cs ih => intro st h; exact ih (keyStep st c) (keyStep_nonempty_inv st c h)
  exact main initKey (fun hh => absurd rfl hh)

/-- C6 (amended): at end of input while still accumulating a primary
form, the pending token is flushed as the final primary form, the kana
list is empty and `parseKey` succeeds; ending in the kana state is a
failure; ending in the space or done states fails exactly when the
pending buffer is non-empty. -/
theorem parseKey_termination (key : Str) :
    ((keyRun (trimSpaceGo key)).state = .kanji →
      parseKey key =
        some ((keyRun (trimSpaceGo key)).kanji ++
          [(keyRun (trimSpaceGo key)).capture], [])) ∧
    ((keyRun (trimSpaceGo key)).state = .kana → parseKey key = Option.none) ∧
    ((keyRun (trimSpaceGo key)).state = .space ∨
        (keyRun (trimSpaceGo key)).state = .done →
      (parseKey key = Option.none ↔ (keyRun (trimSpaceGo key)).capture ≠ [])) := by
  refine ⟨?_, ?_, ?_⟩
  · intro h
    have hkana : (keyRun (trimSpaceGo key)).kana = [] := keyRun_kana _ h
    simp [parseKey, keyFlush, h, hkana]
  · intro h
    simp [parseKey, keyFlush, h]
  · intro h
    rcases h with h | h <;>
      · by_cases hc : (keyRun (trimSpaceGo key)).capture = [] <;>
          simp [parseKey, keyFlush, h, hc]

/-- Witness for `parseKey_termination`: the key `A` ends still
accumulating a primary form, which is flushed. -/
theorem parseKey_termination_witness :
    parseKey (str "A") =
      some ((keyRun (trimSpaceGo (str "A"))).kanji ++
        [(keyRun (trimSpaceGo (str "A"))).capture], []) :=
  (parseKey_termination (str "A")).1 (by decide)

/-- C5 (amended): whenever `parseKey` succeeds, the kanji list is
non-empty (the kana list may be empty) and no returned token contains a
semicolon — tokens can, however, contain brackets or spaces. -/
theorem parseKey_output_guarantee (key : Str) (kanji kana : List Str)
    (h : parseKey key = some (kanji, kana)) :
    kanji ≠ [] ∧ (∀ t ∈ kanji, ';' ∉ t) ∧ ∀ t ∈ kana, ';' ∉ t := by
  obtain ⟨hc, hkj, hkn⟩ := keyRun_semi (trimSpaceGo key)
  by_cases hk : (keyRun (trimSpaceGo key)).state = .kanji
  · simp only [parseKey, keyFlush] at h
    simp [hk] at h
    obtain ⟨h1, h2⟩ := h
    subst h1; subst h2
    refine ⟨by simp, ?_, hkn⟩
    intro t ht
    simp only [List.mem_append, List.mem_singleton] at ht
    rcases ht with ht | rfl
    · exact hkj t ht
    · exact hc
  · by_cases hd : (keyRun (trimSpaceGo key)).state = .done ∨
        (keyRun (trimSpaceGo key)).state = .space
    · by_cases hcap : (keyRun (trimSpaceGo key)).capture = []
      · rcases hd with hd | hd <;>
          · simp only [parseKey, keyFlush] at h
            simp [hk, hd, hcap] at h
            obtain ⟨h1, h2⟩ := h
            subst h1; subst h2
            exact ⟨keyRun_nonempty _ hk, hkj, hkn⟩
      · rcases hd with hd | hd <;>
          · simp only [parseKey, keyFlush] at h
            simp [hk, hd, hcap] at h
    · have hkana : (keyRun (trimSpaceGo key)).state = .kana := by
        cases hst : (keyRun (trimSpaceGo key)).state <;> simp_all
      simp only [parseKey, keyFlush] at h
      simp [hk, hkana] at h

/-- Witness for `parseKey_output_guarantee` at a concrete key. -/
theorem parseKey_output_guarantee_witness :
    [str "A"] ≠ [] ∧ (∀ t ∈ [str "A"], ';' ∉ t) ∧
      ∀ t ∈ ([] : List Str), ';' ∉ t :=
  parseKey_output_guarantee (str "A") [str "A"] [] (by decide)

/-- A failing front part of `parseLine` yields either the error result or
a panic. -/
theorem lineFront_error (line : Str) (r : LineRes) (h : lineFront line = .error r) :
    r = .err ∨ r = .crash := by
  simp only [lineFront] at h
  by_cases h1 : (splitGo ['/'] line).getLastD [] ≠ []
  · rw [if_pos h1] at h
    exact Or.inl (Except.error.inj h).symm
  · rw [if_neg h1] at h
    by_cases h2 : (splitGo ['/'] line).length < 2
    · rw [if_pos h2] at h
      exact Or.inr (Except.error.inj h).symm
    · rw [if_neg h2] at h
      rcases hpk : parseKey ((splitGo ['/'] line).getD 0 []) with _ | ⟨kj, kn⟩ <;>
        rw [hpk] at h
      · exact Or.inl (Except.error.inj h).symm
      · exact absurd h (by simp)

/-- The front part returns the '/'-split components of the line. -/
theorem lineFront_parts (line : Str) (fr : Front) (h : lineFront line = .ok fr) :
    fr.parts = splitGo ['/'] line := by
  simp only [lineFront] at h
  by_cases h1 : (splitGo ['/'] line).getLastD [] ≠ []
  · rw [if_pos h1] at h
    exact absurd h (by simp)
  · rw [if_neg h1] at h
    by_cases h2 : (splitGo ['/'] line).length < 2
    · rw [if_pos h2] at h
      exact absurd h (by simp)
    · rw [if_neg h2] at h
      rcases hpk : parseKey ((splitGo ['/'] line).getD 0 []) with _ | ⟨kj, kn⟩ <;>
        rw [hpk] at h
      · exact absurd h (by simp)
      · obtain rfl := Except.ok.inj h
        rfl

/-- C4 (amended): every `Record` returned by `parseLine` for a line of at
most four '/'-separated components contains at least one definition;
longer lines can return an empty `Gloss` sequence. -/
theorem parseLine_gloss_nonempty (line : Str) (e : Entry)
    (h4 : (splitGo ['/'] line).length ≤ 4) (h : parseLine line = .ok e) :
    e.Gloss ≠ [] := by
  rcases hf : lineFront line with r | fr
  · simp only [parseLine, hf] at h
    rcases lineFront_error line r hf with rfl | rfl <;> simp at h
  · simp only [parseLine, hf] at h
    have hp := lineFront_parts line fr hf
    have hgt : ¬fr.parts.length > 4 := by rw [hp]; omega
    rw [if_neg hgt] at h
    simp only [finishLine] at h
    rw [if_neg hgt] at h
    rcases hgl : glossLoop [] (fr.parts.getD 1 [] :: []) with _ | ⟨i2, gl⟩ <;>
      rw [hgl] at h
    · exact absurd h (by simp)
    · dsimp only at h
      rw [if_pos (by omega)] at h
      cases gl with
      | nil => exact absurd h (by simp)
      | cons g0 rest =>
        obtain rfl := LineRes.ok.inj h
        simp

/-- Witness for `parseLine_gloss_nonempty` at a concrete line. -/
theorem parseLine_gloss_nonempty_witness :
    (Entry.mk [str "A"] [] [.N] [⟨str "foo", [], []⟩] (str "seq") false).Gloss ≠ [] :=
  parseLine_gloss_nonempty (str "A/(n) foo/seq/")
    (Entry.mk [str "A"] [] [.N] [⟨str "foo", [], []⟩] (str "seq") false)
    (by decide) (by decide)

/-- Every gloss produced by the gloss loop comes from one of its input
fields, keeping exactly the details and cross references that
`parseGloss` returned for that field. -/
theorem glossLoop_mem (gs : List Str) : ∀ (info i2 : List Detail) (out : List Gloss),
    glossLoop info gs = some (i2, out) →
    ∀ g ∈ out, ∃ s, s ∈ gs ∧
      parseGloss s = some (g.Definition, g.Information, g.Xref) := by
  induction gs with
  | nil =>
    intro info i2 out h g hg
    simp only [glossLoop, Option.some.injEq, Prod.mk.injEq] at h
    obtain ⟨-, h2⟩ := h
    subst h2
    exact absurd hg (by simp)
  | cons s gs ih =>
    intro info i2 out h g hg
    simp only [glossLoop] at h
    by_cases hP : s = str "(P)"
    · rw [if_pos hP] at h
      obtain ⟨t, ht, hpg⟩ := ih _ _ _ h g hg
      exact ⟨t, List.mem_cons_of_mem _ ht, hpg⟩
    · rw [if_neg hP] at h
      rcases hpg : parseGloss s with _ | ⟨d, det, xr⟩ <;> rw [hpg] at h
      · exact absurd h (by simp)
      · rcases hrec : glossLoop info gs with _ | ⟨i2', out'⟩ <;> rw [hrec] at h
        · exact absurd h (by simp)
        · simp only [Option.some.injEq, Prod.mk.injEq] at h
          obtain ⟨h1, h2⟩ := h
          subst h2
          rcases List.mem_cons.mp hg with rfl | hg'
          · exact ⟨s, List.mem_cons_self _ _, hpg⟩
          · obtain ⟨t, ht, hpg'⟩ := ih _ _ _ hrec g hg'
            exact ⟨t, List.mem_cons_of_mem _ ht, hpg'⟩

/-- A successful `finishLine` on a long line takes every gloss from the
gloss loop over its fields, none of them cleared. -/
theorem finishLine_mem (fr : Front) (info : List Detail) (first : Str) (e : Entry)
    (hgt : fr.parts.length > 4) (h : finishLine fr info first = .ok e) :
    ∀ g ∈ e.Gloss, ∃ s,
      s ∈ first :: (fr.parts.drop 2).take (fr.parts.length - 4) ∧
        parseGloss s = some (g.Definition, g.Information, g.Xref) := by
  simp only [finishLine] at h
  rw [if_pos hgt] at h
  rcases hgl : glossLoop info (first :: (fr.parts.drop 2).take (fr.parts.length - 4))
      with _ | ⟨i2, gl⟩ <;> rw [hgl] at h
  · exact absurd h (by simp)
  · dsimp only at h
    rw [if_neg (by omega)] at h
    obtain rfl := LineRes.ok.inj h
    intro g hg
    exact glossLoop_mem _ _ _ _ hgl g hg

/-- C2 (amended): a line of at most four '/'-separated components (a
single candidate definition field, hence a single definition) has that
definition's annotation list promoted to the entry-wide `Information`
with the definition's own list left empty; a line of more than four
components never promotes — every returned definition keeps exactly its
own annotations, even when the line ultimately produced only one
definition. -/
theorem parseLine_single_gloss_promotion (line : Str) :
    (∀ e : Entry, (splitGo ['/'] line).length ≤ 4 → parseLine line = .ok e →
      ∃ d xr, parseGloss ((splitGo ['/'] line).getD 1 []) =
          some (d, e.Information, xr) ∧ e.Gloss = [⟨d, [], xr⟩]) ∧
    (∀ e : Entry, (splitGo ['/'] line).length > 4 → parseLine line = .ok e →
      ∀ g ∈ e.Gloss, ∃ s, s ∈ glossFieldsOf line ∧
        parseGloss s = some (g.Definition, g.Information, g.Xref)) := by
  constructor
  · intro e h4 h
    rcases hf : lineFront line with r | fr
    · simp only [parseLine, hf] at h
      rcases lineFront_error line r hf with rfl | rfl <;> simp at h
    · simp only [parseLine, hf] at h
      have hp := lineFront_parts line fr hf
      have hgt : ¬fr.parts.length > 4 := by rw [hp]; omega
      rw [if_neg hgt] at h
      simp only [finishLine] at h
      rw [if_neg hgt] at h
      by_cases hP : fr.parts.getD 1 [] = str "(P)"
      · rw [show glossLoop [] (fr.parts.getD 1 [] :: []) =
            some ([Detail.Common], []) by
              simp only [glossLoop]; rw [if_pos hP]; rfl] at h
        dsimp only at h
        rw [if_pos (by omega)] at h
        exact absurd h (by simp)
      · rcases hpg : parseGloss (fr.parts.getD 1 []) with _ | ⟨d, det, xr⟩
        · rw [show glossLoop [] (fr.parts.getD 1 [] :: []) = Option.none by
            simp only [glossLoop]; rw [if_neg hP, hpg]] at h
          exact absurd h (by simp)
        · rw [show glossLoop [] (fr.parts.getD 1 [] :: []) =
              some ([], [⟨d, det, xr⟩]) by
                simp only [glossLoop]; rw [if_neg hP, hpg]] at h
          dsimp only at h
          rw [if_pos (by omega)] at h
          obtain rfl := LineRes.ok.inj h
          refine ⟨d, xr, ?_, rfl⟩
          rw [← hp]
          exact hpg
  · intro e hgt4 h
    rcases hf : lineFront line with r | fr
    · simp only [parseLine, hf] at h
      rcases lineFront_error line r hf with rfl | rfl <;> simp at h
    · simp only [parseLine, hf] at h
      have hp := lineFront_parts line fr hf
      have hgt : fr.parts.length > 4 := by rw [hp]; omega
      rw [if_pos hgt] at h
      rcases hsp : splitGo (str "(1)") (fr.parts.getD 1 [])
          with _ | ⟨a, _ | ⟨b, _ | ⟨c, t⟩⟩⟩ <;> rw [hsp] at h
      · intro g hg
        obtain ⟨s, hs, hpg⟩ := finishLine_mem fr [] (fr.parts.getD 1 []) e hgt h g hg
        refine ⟨s, ?_, hpg⟩
        simp only [glossFieldsOf]
        rw [← hp, hsp]
        simpa [hgt] using hs
      · intro g hg
        obtain ⟨s, hs, hpg⟩ := finishLine_mem fr [] (fr.parts.getD 1 []) e hgt h g hg
        refine ⟨s, ?_, hpg⟩
        simp only [glossFieldsOf]
        rw [← hp, hsp]
        simpa [hgt] using hs
      · dsimp only at h
        rcases hpg0 : parseGloss (a ++ str "fake definition") with _ | ⟨d0, det0, xr0⟩ <;>
          rw [hpg0] at h
        · exact absurd h (by simp)
        · dsimp only at h
          by_cases hxr : xr0 = []
          · rw [if_pos hxr] at h
            intro g hg
            obtain ⟨s, hs, hpg⟩ := finishLine_mem fr det0 b e hgt h g hg
            refine ⟨s, ?_, hpg⟩
            simp only [glossFieldsOf]
            rw [← hp, hsp]
            simpa [hgt] using hs
          · rw [if_neg hxr] at h
            exact absurd h (by simp)
      · intro g hg
        obtain ⟨s, hs, hpg⟩ := finishLine_mem fr [] (fr.parts.getD 1 []) e hgt h g hg
        refine ⟨s, ?_, hpg⟩
        simp only [glossFieldsOf]
        rw [← hp, hsp]
        simpa [hgt] using hs

/-- Witness for `parseLine_single_gloss_promotion` at a concrete
single-sense line: the `n` tag ends up entry-wide and the definition's
own list is empty. -/
theorem parseLine_single_gloss_promotion_witness :
    ∃ d xr, parseGloss ((splitGo ['/'] (str "A/(n) foo/seq/")).getD 1 []) =
        some (d,
          (Entry.mk [str "A"] [] [.N] [⟨str "foo", [], []⟩] (str "seq")
            false).Information, xr) ∧
      (Entry.mk [str "A"] [] [.N] [⟨str "foo", [], []⟩] (str "seq")
        false).Gloss = [⟨d, [], xr⟩] :=
  (parseLine_single_gloss_promotion (str "A/(n) foo/seq/")).1
    (Entry.mk [str "A"] [] [.N] [⟨str "foo", [], []⟩] (str "seq") false)
    (by decide) (by decide)

/-- C1 (amended): entry-wide scope redistribution happens exactly when
the line has more than two definition-bearing fields (more than four
'/'-split components) and the first gloss field contains the literal
marker `"(1)"` exactly once; in that case the leading portion is parsed
with a placeholder definition body, must carry no cross reference, and
its annotation list seeds the entry-wide `Information` while the
remainder becomes the first definition field; in every other case the
first gloss field is parsed whole. -/
theorem parseLine_scope_redistribution (line : Str) :
    ((splitGo ['/'] line).length ≤ 4 ∨
        (splitGo (str "(1)") ((splitGo ['/'] line).getD 1 [])).length ≠ 2 →
      parseLine line = parseLineWhole line) ∧
    (∀ fr pre post, lineFront line = .ok fr → fr.parts.length > 4 →
      splitGo (str "(1)") (fr.parts.getD 1 []) = [pre, post] →
      parseLine line =
        match parseGloss (pre ++ str "fake definition") with
        | Option.none => LineRes.err
        | some (_, det, xr) =>
          if xr = [] then finishLine fr det post else LineRes.err) := by
  constructor
  · intro hc
    rcases hf : lineFront line with r | fr
    · simp only [parseLine, parseLineWhole, hf]
    · simp only [parseLine, parseLineWhole, hf]
      have hp := lineFront_parts line fr hf
      by_cases hgt : fr.parts.length > 4
      · rw [if_pos hgt]
        rcases hc with hc | hc
        · have hc' : fr.parts.length ≤ 4 := by rw [hp]; exact hc
          omega
        · have hc' : (splitGo (str "(1)") (fr.parts.getD 1 [])).length ≠ 2 := by
            rw [hp]; exact hc
          rcases hsp : splitGo (str "(1)") (fr.parts.getD 1 [])
              with _ | ⟨a, _ | ⟨b, _ | ⟨c, t⟩⟩⟩ <;> rw [hsp] at hc' <;>
            first
              | exact absurd rfl hc'
              | rfl
      · rw [if_neg hgt]
  · intro fr pre post hf hgt hsp
    simp only [parseLine, hf]
    rw [if_pos hgt, hsp]

/-- Witness for `parseLine_scope_redistribution`: a line with a single
definition field is assembled with its first gloss field parsed whole. -/
theorem parseLine_scope_redistribution_witness :
    parseLine (str "A/(n) foo/seq/") = parseLineWhole (str "A/(n) foo/seq/") :=
  (parseLine_scope_redistribution (str "A/(n) foo/seq/")).1 (Or.inl (by decide))

/-- Prepending no entries changes nothing. -/
theorem prependE_nil (x : ParseOut) : prependE [] x = x := by
  cases x <;> simp [prependE]

/-- The batch loop over a block of successfully parsing lines followed by
anything collects those lines' entries in order and continues with the
line counter advanced. -/
theorem ParseAux_append (pre : List Str) : ∀ (n : Nat) (rest : List Str),
    (∀ l ∈ pre, (parseLine l).isOk = true) →
    ParseAux n (pre ++ rest) =
      prependE (pre.filterMap fun l => (parseLine l).toOption)
        (ParseAux (n + pre.length) rest) := by
  induction pre with
  | nil =>
    intro n rest h
    simp [prependE_nil]
  | cons l pre ih =>
    intro n rest h
    have hl := h l (List.mem_cons_self _ _)
    cases hok : parseLine l with
    | err => rw [hok] at hl; simp [LineRes.isOk] at hl
    | crash => rw [hok] at hl; simp [LineRes.isOk] at hl
    | ok e =>
      rw [List.cons_append]
      simp only [ParseAux]
      rw [hok]
      dsimp only
      rw [ih (n + 1) rest (fun l' hl' => h l' (List.mem_cons_of_mem _ hl'))]
      simp only [List.filterMap_cons, hok, LineRes.toOption, List.length_cons]
      rw [show n + 1 + pre.length = n + (pre.length + 1) from by omega]
      cases ParseAux (n + (pre.length + 1)) rest <;> simp [prependE]

/-- A block of successfully parsing lines contributes one entry each. -/
theorem parseLine_filterMap_length (pre : List Str)
    (hv : ∀ l ∈ pre, (parseLine l).isOk = true) :
    (pre.filterMap fun l => (parseLine l).toOption).length = pre.length := by
  induction pre with
  | nil => simp
  | cons l pre ih =>
    have hl := hv l (List.mem_cons_self _ _)
    cases hok : parseLine l with
    | err => rw [hok] at hl; simp [LineRes.isOk] at hl
    | crash => rw [hok] at hl; simp [LineRes.isOk] at hl
    | ok e =>
      rw [@List.filterMap_cons_some _ _ (fun l' => (parseLine l').toOption) l pre e
        (by simp [hok, LineRes.toOption])]
      simp only [List.length_cons]
      rw [ih (fun l' hl' => hv l' (List.mem_cons_of_mem _ hl'))]

/-- C9: the batch driver processes lines in order with a 1-based counter:
a batch of successfully parsing lines yields exactly their entries, one
per line, in input order; appending a failing line halts the batch with
the accumulated entries and the failing 1-based line number when that
number is not on the skip list, and silently skips the line and
continues when it is. -/
theorem Parse_batch (pre : List Str) (bad : Str) (rest : List Str)
    (hv : ∀ l ∈ pre, (parseLine l).isOk = true) :
    (Parse pre = .ok (pre.filterMap fun l => (parseLine l).toOption) ∧
      (pre.filterMap fun l => (parseLine l).toOption).length = pre.length) ∧
    (parseLine bad = .err → pre.length + 1 ∉ blacklist →
      Parse (pre ++ bad :: rest) =
        .fail (pre.filterMap fun l => (parseLine l).toOption) (pre.length + 1)) ∧
    (parseLine bad = .err → pre.length + 1 ∈ blacklist →
      Parse (pre ++ bad :: rest) =
        prependE (pre.filterMap fun l => (parseLine l).toOption)
          (ParseAux (pre.length + 1) rest)) := by
  refine ⟨⟨?_, parseLine_filterMap_length pre hv⟩, ?_, ?_⟩
  · have h := ParseAux_append pre 0 [] hv
    simp only [List.append_nil, ParseAux, prependE, Nat.zero_add] at h
    simpa [Parse] using h
  · intro hbad hnb
    have h := ParseAux_append pre 0 (bad :: rest) hv
    simp only [Parse]
    rw [h]
    simp only [ParseAux, Nat.zero_add]
    rw [hbad]
    dsimp only
    rw [if_neg hnb]
    simp [prependE]
  · intro hbad hb
    have h := ParseAux_append pre 0 (bad :: rest) hv
    simp only [Parse]
    rw [h]
    simp only [ParseAux, Nat.zero_add]
    rw [hbad]
    dsimp only
    rw [if_pos hb]

/-- Witness for `Parse_batch`: one valid line followed by a malformed
line halts the batch at line 2 with the first entry kept. -/
theorem Parse_batch_witness :
    Parse ([str "A/(n) foo/seq/"] ++ str "bad" :: []) =
      .fail ([str "A/(n) foo/seq/"].filterMap fun l => (parseLine l).toOption)
        ([str "A/(n) foo/seq/"].length + 1) :=
  (Parse_batch [str "A/(n) foo/seq/"] (str "bad") [] (by decide)).2.1
    (by decide) (by decide)

end Edict
